import Mathlib

/-!
# Verification of the `scale` repository's core pipeline

Shallow embedding of `src/scale_api.py` (device discovery, frame parsing,
reading service, HTTP mapping) and of `get_ngrok_url` from
`src/api_script.py`, with theorems settling the specification claims.

Conventions of the embedding:
* Strings are Lean `String`s; character classes (`\d`, `[0-9]`, whitespace)
  are modelled over the ASCII range, which is the range the data of this
  protocol lives in.
* Serial I/O is modelled by an environment value describing how each
  candidate port behaves when opened, probed and read.
* Python exceptions are modelled with `Except`: a `.error` value is an
  exception propagating out of the modelled function.
-/

namespace Scale

/-! ## Frame parser: `parse_scale_data` (src/scale_api.py lines 57-75) -/

/-- The character class kept by the second cleaning step,
`re.sub(r'[^0-9\.g]', '', ...)`: ASCII digits, the decimal point, and `g`. -/
def keepChar (c : Char) : Bool := c.isDigit || c == '.' || c == 'g'

/-- Python `str.strip()` default whitespace (ASCII part). -/
def pyWs (c : Char) : Bool :=
  c == ' ' || c == '\t' || c == '\n' || c == '\r' || c == '\x0b' || c == '\x0c'

/-- Python `str.strip()`: drop whitespace from both ends. -/
def pyStrip (cs : List Char) : List Char :=
  ((cs.dropWhile pyWs).reverse.dropWhile pyWs).reverse

/-- Step 1 of the parser: `re.sub(r'^[^\d]*', '', raw_data)` removes the
leading run of non-digit characters. -/
def step1 (cs : List Char) : List Char := cs.dropWhile (fun c => !c.isDigit)

/-- Step 2: `re.sub(r'[^0-9\.g]', '', ...)` removes every character that is
not a digit, a decimal point, or `g`. -/
def step2 (cs : List Char) : List Char := cs.filter keepChar

/-- The cleaning pipeline applied to the raw line: steps 1, 2 and
`.strip()`. -/
def cleanedOf (raw : String) : List Char := pyStrip (step2 (step1 raw.toList))

/-- The numeric group `([0-9]+(?:\.[0-9]+)?)` of the final regex, matched
greedily at the start of the input.  Returns the characters of group 1 and
the unconsumed rest, or `none` when no digit starts the input.  The inner
optional group is attempted greedily and dropped again when `\.` is not
followed by a digit, exactly as the Python engine backtracks out of
`(?:\.[0-9]+)?`. -/
def matchNumber (cs : List Char) : Option (List Char × List Char) :=
  let ds := cs.takeWhile Char.isDigit
  let rest := cs.dropWhile Char.isDigit
  if ds.isEmpty then none
  else
    match rest with
    | c :: r2 =>
      if c = '.' then
        let fs := r2.takeWhile Char.isDigit
        if fs.isEmpty then some (ds, rest)
        else some (ds ++ '.' :: fs, r2.dropWhile Char.isDigit)
      else some (ds, rest)
    | [] => some (ds, rest)

/-- `\s*` of the final regex (ASCII whitespace). -/
def skipWs (cs : List Char) : List Char := cs.dropWhile pyWs

/-- The optional unit group `(g|kg|lb)?`, alternatives tried in order. -/
def matchUnit (cs : List Char) : Option String × List Char :=
  match cs with
  | [] => (none, [])
  | c :: r =>
    if c = 'g' then (some "g", r)
    else if c = 'k' then
      match r with
      | c2 :: r2 => if c2 = 'g' then (some "kg", r2) else (none, c :: r)
      | [] => (none, c :: r)
    else if c = 'l' then
      match r with
      | c2 :: r2 => if c2 = 'b' then (some "lb", r2) else (none, c :: r)
      | [] => (none, c :: r)
    else (none, c :: r)

/-- `re.match(r'([0-9]+(?:\.[0-9]+)?)\s*(g|kg|lb)?', cleaned_data)`:
anchored at the start, a prefix match.  Returns group 1, group 2 and the
unmatched remainder.  No backtracking beyond `matchNumber`'s is needed:
everything after group 1 is optional and nothing follows the unit group. -/
def reMatch (cs : List Char) : Option (List Char × Option String × List Char) :=
  match matchNumber cs with
  | none => none
  | some (g1, rest) =>
    let mu := matchUnit (skipWs rest)
    some (g1, mu.1, mu.2)

/-- Numeric value of a list of ASCII digit characters. -/
def digitsToNat (cs : List Char) : Nat :=
  cs.foldl (fun a c => 10 * a + (c.toNat - 48)) 0

/-- Models Python `float(weight)` on the strings that can appear as group 1
of the match (a run of digits with at most one interior decimal point),
returning the exact rational value; any other shape yields `none`, which
feeds the `except ValueError` guard of the source. -/
def floatOfChars (cs : List Char) : Option ℚ :=
  let a := cs.takeWhile (fun c => c ≠ '.')
  match cs.dropWhile (fun c => c ≠ '.') with
  | [] =>
    if a.isEmpty || !a.all Char.isDigit then none else some (digitsToNat a)
  | _ :: b =>
    if b.any (fun c => c == '.') then none
    else if a.isEmpty || !a.all Char.isDigit || b.isEmpty || !b.all Char.isDigit then none
    else some ((digitsToNat a : ℚ) + (digitsToNat b : ℚ) / (10 : ℚ) ^ b.length)

/-- `parse_scale_data(raw_data)` (src/scale_api.py lines 57-75): cleans the
raw line, matches the numeric pattern at the start, converts group 1 with
`float`, and defaults the unit to `g` when group 2 is absent (the Python
truthiness test `match.group(2) if match.group(2) else 'g'`; the
alternatives of group 2 are all non-empty strings).  Returns the pair
`(weight, unit)`, both `None` on failure. -/
def parse_scale_data (raw : String) : Option ℚ × Option String :=
  match reMatch (cleanedOf raw) with
  | none => (none, none)
  | some (g1, g2, _) =>
    match floatOfChars g1 with
    | none => (none, none)
    | some w =>
      let unit := match g2 with
        | some u => u
        | none => "g"
      (some w, some unit)

/-! ## List toolkit for the cleaning and matching steps -/

theorem takeWhile_append_all (p : Char → Bool) (l r : List Char)
    (h : ∀ c ∈ l, p c = true) : (l ++ r).takeWhile p = l ++ r.takeWhile p := by
  induction l with
  | nil => simp
  | cons a t ih =>
    simp only [List.cons_append, List.takeWhile_cons, h a (by simp), if_true]
    rw [ih (fun c hc => h c (by simp [hc]))]

theorem dropWhile_append_all (p : Char → Bool) (l r : List Char)
    (h : ∀ c ∈ l, p c = true) : (l ++ r).dropWhile p = r.dropWhile p := by
  induction l with
  | nil => simp
  | cons a t ih =>
    simp only [List.cons_append, List.dropWhile_cons, h a (by simp), if_true]
    exact ih (fun c hc => h c (by simp [hc]))

theorem takeWhile_all_eq_self (p : Char → Bool) (l : List Char)
    (h : ∀ c ∈ l, p c = true) : l.takeWhile p = l := by
  simpa using takeWhile_append_all p l [] h

theorem dropWhile_all_eq_nil (p : Char → Bool) (l : List Char)
    (h : ∀ c ∈ l, p c = true) : l.dropWhile p = [] := by
  simpa using dropWhile_append_all p l [] h

theorem takeWhile_cons_false (p : Char → Bool) (a : Char) (l : List Char)
    (h : p a = false) : (a :: l).takeWhile p = [] := by
  simp [List.takeWhile_cons, h]

theorem dropWhile_cons_false (p : Char → Bool) (a : Char) (l : List Char)
    (h : p a = false) : (a :: l).dropWhile p = a :: l := by
  simp [List.dropWhile_cons, h]

theorem dropWhile_eq_self_of_none (p : Char → Bool) (l : List Char)
    (h : ∀ c ∈ l, p c = false) : l.dropWhile p = l := by
  cases l with
  | nil => rfl
  | cons a t => exact dropWhile_cons_false p a t (h a (by simp))

theorem pyStrip_eq_self (l : List Char) (h : ∀ c ∈ l, pyWs c = false) :
    pyStrip l = l := by
  unfold pyStrip
  rw [dropWhile_eq_self_of_none _ _ h,
    dropWhile_eq_self_of_none _ _ (fun c hc => h c (List.mem_reverse.mp hc)),
    List.reverse_reverse]

theorem mem_of_mem_pyStrip {c : Char} {l : List Char} (h : c ∈ pyStrip l) : c ∈ l := by
  unfold pyStrip at h
  rw [List.mem_reverse] at h
  have h2 := (List.dropWhile_sublist _).subset h
  rw [List.mem_reverse] at h2
  exact (List.dropWhile_sublist _).subset h2

theorem ne_of_isDigit {c x : Char} (h : c.isDigit = true) (hx : x.isDigit = false) :
    c ≠ x := by
  intro e
  rw [e, hx] at h
  exact Bool.noConfusion h

theorem isDigit_ne_dot {c : Char} (h : c.isDigit = true) : c ≠ '.' :=
  ne_of_isDigit h (by decide)

theorem keepChar_not_ws {c : Char} (h : keepChar c = true) : pyWs c = false := by
  simp only [keepChar, Bool.or_eq_true, beq_iff_eq] at h
  rcases h with (h | h) | h
  · have h1 : c ≠ ' ' := ne_of_isDigit h (by decide)
    have h2 : c ≠ '\t' := ne_of_isDigit h (by decide)
    have h3 : c ≠ '\n' := ne_of_isDigit h (by decide)
    have h4 : c ≠ '\r' := ne_of_isDigit h (by decide)
    have h5 : c ≠ '\x0b' := ne_of_isDigit h (by decide)
    have h6 : c ≠ '\x0c' := ne_of_isDigit h (by decide)
    simp [pyWs, h1, h2, h3, h4, h5, h6]
  · subst h; decide
  · subst h; decide

theorem keepChar_of_isDigit {c : Char} (h : c.isDigit = true) : keepChar c = true := by
  simp [keepChar, h]

/-! ## Evaluation lemmas for `floatOfChars` -/

theorem floatOfChars_digits (ds : List Char) (h1 : ds ≠ [])
    (h2 : ds.all Char.isDigit = true) :
    floatOfChars ds = some (digitsToNat ds) := by
  have hall : ∀ c ∈ ds, c.isDigit = true := by
    intro c hc; exact List.all_eq_true.mp h2 c hc
  have hne : ∀ c ∈ ds, (fun c => decide (c ≠ '.')) c = true := by
    intro c hc
    simp only [decide_eq_true_eq]
    exact isDigit_ne_dot (hall c hc)
  have he : ds.isEmpty = false := by
    cases ds with
    | nil => exact absurd rfl h1
    | cons a t => rfl
  unfold floatOfChars
  rw [takeWhile_all_eq_self _ _ hne, dropWhile_all_eq_nil _ _ hne]
  simp [he, h2]

theorem floatOfChars_dot (a b : List Char) (ha1 : a ≠ [])
    (ha2 : a.all Char.isDigit = true) (hb1 : b ≠ [])
    (hb2 : b.all Char.isDigit = true) :
    floatOfChars (a ++ '.' :: b)
      = some ((digitsToNat a : ℚ) + (digitsToNat b : ℚ) / (10 : ℚ) ^ b.length) := by
  have halla : ∀ c ∈ a, c.isDigit = true := by
    intro c hc; exact List.all_eq_true.mp ha2 c hc
  have hallb : ∀ c ∈ b, c.isDigit = true := by
    intro c hc; exact List.all_eq_true.mp hb2 c hc
  have hne : ∀ c ∈ a, (fun c => decide (c ≠ '.')) c = true := by
    intro c hc
    simp only [decide_eq_true_eq]
    exact isDigit_ne_dot (halla c hc)
  have hea : a.isEmpty = false := by
    cases a with
    | nil => exact absurd rfl ha1
    | cons x t => rfl
  have heb : b.isEmpty = false := by
    cases b with
    | nil => exact absurd rfl hb1
    | cons x t => rfl
  have hany : b.any (fun c => c == '.') = false := by
    rw [Bool.eq_false_iff]
    intro hb
    rw [List.any_eq_true] at hb
    obtain ⟨c, hc, hcd⟩ := hb
    exact isDigit_ne_dot (hallb c hc) (by simpa using hcd)
  unfold floatOfChars
  rw [takeWhile_append_all _ _ _ hne, dropWhile_append_all _ _ _ hne,
    takeWhile_cons_false _ _ _ (by decide), dropWhile_cons_false _ _ _ (by decide)]
  simp [hany, hea, heb, ha2, hb2]

/-! ## Evaluation lemmas for the matcher -/

theorem matchNumber_digits_append (ds : List Char) (x : Char) (r : List Char)
    (h1 : ds ≠ []) (h2 : ds.all Char.isDigit = true)
    (hx : x.isDigit = false) (hxd : x ≠ '.') :
    matchNumber (ds ++ x :: r) = some (ds, x :: r) := by
  have hall : ∀ c ∈ ds, c.isDigit = true := by
    intro c hc; exact List.all_eq_true.mp h2 c hc
  have he : ds.isEmpty = false := by
    cases ds with
    | nil => exact absurd rfl h1
    | cons a t => rfl
  unfold matchNumber
  rw [takeWhile_append_all _ _ _ hall, dropWhile_append_all _ _ _ hall,
    takeWhile_cons_false _ _ _ hx, dropWhile_cons_false _ _ _ hx]
  simp [he, hxd]

theorem matchNumber_dot (ds fs : List Char) (x : Char) (r : List Char)
    (h1 : ds ≠ []) (h2 : ds.all Char.isDigit = true)
    (hf1 : fs ≠ []) (hf2 : fs.all Char.isDigit = true)
    (hx : x.isDigit = false) :
    matchNumber (ds ++ '.' :: (fs ++ x :: r)) = some (ds ++ '.' :: fs, x :: r) := by
  have hall : ∀ c ∈ ds, c.isDigit = true := by
    intro c hc; exact List.all_eq_true.mp h2 c hc
  have hallf : ∀ c ∈ fs, c.isDigit = true := by
    intro c hc; exact List.all_eq_true.mp hf2 c hc
  have he : ds.isEmpty = false := by
    cases ds with
    | nil => exact absurd rfl h1
    | cons a t => rfl
  have hef : fs.isEmpty = false := by
    cases fs with
    | nil => exact absurd rfl hf1
    | cons a t => rfl
  unfold matchNumber
  rw [takeWhile_append_all _ _ _ hall, dropWhile_append_all _ _ _ hall,
    takeWhile_cons_false _ _ _ (by decide), dropWhile_cons_false _ _ _ (by decide)]
  simp only [List.append_nil, he, Bool.false_eq_true, if_false, if_pos rfl]
  rw [takeWhile_append_all _ _ _ hallf, dropWhile_append_all _ _ _ hallf,
    takeWhile_cons_false _ _ _ hx, dropWhile_cons_false _ _ _ hx]
  simp [hef]

theorem matchUnit_cons_g (r : List Char) : matchUnit ('g' :: r) = (some "g", r) := by
  simp [matchUnit]

theorem matchUnit_keep (cs : List Char) (h : ∀ c ∈ cs, keepChar c = true) :
    (matchUnit cs).1 = none ∨ (matchUnit cs).1 = some "g" := by
  cases cs with
  | nil => left; rfl
  | cons c r =>
    by_cases hg : c = 'g'
    · right; simp [matchUnit, hg]
    · have hck : keepChar c = true := h c (by simp)
      have hk : c ≠ 'k' := by intro e; subst e; exact absurd hck (by decide)
      have hl : c ≠ 'l' := by intro e; subst e; exact absurd hck (by decide)
      left; simp [matchUnit, hg, hk, hl]

theorem matchUnit_some (cs : List Char) (u : String) (h : (matchUnit cs).1 = some u) :
    u = "g" ∨ u = "kg" ∨ u = "lb" := by
  unfold matchUnit at h
  rcases cs with _ | ⟨c, r⟩
  · cases h
  · by_cases hg : c = 'g'
    · simp [hg] at h; exact Or.inl h.symm
    · by_cases hk : c = 'k'
      · rcases r with _ | ⟨c2, r2⟩
        · simp [hg, hk] at h
        · by_cases hg2 : c2 = 'g'
          · simp [hg, hk, hg2] at h; exact Or.inr (Or.inl h.symm)
          · simp [hg, hk, hg2] at h
      · by_cases hl : c = 'l'
        · rcases r with _ | ⟨c2, r2⟩
          · simp [hg, hk, hl] at h
          · by_cases hb : c2 = 'b'
            · simp [hg, hk, hl, hb] at h; exact Or.inr (Or.inr h.symm)
            · simp [hg, hk, hl, hb] at h
        · simp [hg, hk, hl] at h

theorem matchNumber_rest_mem {cs g1 rest : List Char}
    (h : matchNumber cs = some (g1, rest)) : ∀ c ∈ rest, c ∈ cs := by
  simp only [matchNumber] at h
  have hdw : ∀ c ∈ cs.dropWhile Char.isDigit, c ∈ cs :=
    fun c hc => (List.dropWhile_sublist _).subset hc
  split at h
  · exact absurd h (by simp)
  · split at h
    · rename_i c0 r2 heq
      split at h
      · split at h
        · simp only [Option.some.injEq, Prod.mk.injEq] at h
          rw [← h.2]
          exact hdw
        · simp only [Option.some.injEq, Prod.mk.injEq] at h
          rw [← h.2]
          intro c hc
          refine hdw c ?_
          rw [heq]
          exact List.mem_cons_of_mem _ ((List.dropWhile_sublist _).subset hc)
      · simp only [Option.some.injEq, Prod.mk.injEq] at h
        rw [← h.2]
        exact hdw
    · simp only [Option.some.injEq, Prod.mk.injEq] at h
      rw [← h.2]
      exact hdw

theorem keep_of_mem_cleanedOf {raw : String} {c : Char} (h : c ∈ cleanedOf raw) :
    keepChar c = true := by
  unfold cleanedOf step2 at h
  exact (List.mem_filter.mp (mem_of_mem_pyStrip h)).2

theorem reMatch_digits_g (ds : List Char) (h1 : ds ≠ [])
    (h2 : ds.all Char.isDigit = true) :
    reMatch (ds ++ ['g']) = some (ds, some "g", []) := by
  unfold reMatch
  rw [matchNumber_digits_append ds 'g' [] h1 h2 (by decide) (by decide)]
  rfl

theorem reMatch_digits_dot_g (ds fs : List Char) (h1 : ds ≠ [])
    (h2 : ds.all Char.isDigit = true) (hf1 : fs ≠ [])
    (hf2 : fs.all Char.isDigit = true) :
    reMatch (ds ++ '.' :: (fs ++ ['g'])) = some (ds ++ '.' :: fs, some "g", []) := by
  unfold reMatch
  rw [matchNumber_dot ds fs 'g' [] h1 h2 hf1 hf2 (by decide)]
  rfl

theorem parse_eval (raw : String) (g1 : List Char) (g2 : Option String)
    (r : List Char) (q : ℚ)
    (h1 : reMatch (cleanedOf raw) = some (g1, g2, r))
    (h2 : floatOfChars g1 = some q) :
    parse_scale_data raw = (some q, some (g2.getD "g")) := by
  unfold parse_scale_data
  simp only [h1, h2]
  cases g2 <;> rfl

/-- Cleaning a raw line made of leading digits, a kept middle part, a
filtered-out separator, and a trailing `g`: step 1 leaves it unchanged
(it starts with a digit), step 2 removes exactly the separator, and the
strip is the identity on the remaining non-whitespace characters. -/
theorem cleanedOf_digits_mid_sep_g (ds mid sep : List Char)
    (hd : ds ≠ []) (hall : ∀ c ∈ ds, c.isDigit = true)
    (hmid : ∀ c ∈ mid, keepChar c = true)
    (hsep : ∀ c ∈ sep, keepChar c = false) :
    cleanedOf (String.mk (ds ++ mid ++ sep ++ ['g'])) = ds ++ mid ++ ['g'] := by
  obtain ⟨d, dt, rfl⟩ := List.exists_cons_of_ne_nil hd
  have htl : (String.mk ((d :: dt) ++ mid ++ sep ++ ['g'])).toList
      = (d :: dt) ++ mid ++ sep ++ ['g'] := rfl
  unfold cleanedOf
  rw [htl]
  have h1 : step1 ((d :: dt) ++ mid ++ sep ++ ['g'])
      = (d :: dt) ++ mid ++ sep ++ ['g'] := by
    unfold step1
    exact dropWhile_cons_false _ _ _ (by simp [hall d (by simp)])
  rw [h1]
  have h2 : step2 ((d :: dt) ++ mid ++ sep ++ ['g'])
      = (d :: dt) ++ mid ++ ['g'] := by
    unfold step2
    rw [List.filter_append, List.filter_append, List.filter_append,
      List.filter_eq_self.mpr (fun c hc => keepChar_of_isDigit (hall c hc)),
      List.filter_eq_self.mpr hmid,
      List.filter_eq_nil_iff.mpr (fun c hc => by simp [hsep c hc]),
      show List.filter keepChar ['g'] = ['g'] from rfl]
    simp
  rw [h2]
  refine pyStrip_eq_self _ (fun c hc => keepChar_not_ws ?_)
  rcases List.mem_append.mp hc with hc1 | hc2
  · rcases List.mem_append.mp hc1 with hc3 | hc4
    · exact keepChar_of_isDigit (hall c hc3)
    · exact hmid c hc4
  · simp only [List.mem_singleton] at hc2
    subst hc2
    decide

theorem matchNumber_cons_isSome (d : Char) (cs : List Char) (hd : d.isDigit = true) :
    (matchNumber (d :: cs)).isSome = true := by
  have htw : (d :: cs).takeWhile Char.isDigit = d :: cs.takeWhile Char.isDigit := by
    simp [List.takeWhile_cons, hd]
  simp only [matchNumber, htw, List.isEmpty_cons, Bool.false_eq_true, if_false]
  split
  · split
    · split <;> rfl
    · rfl
  · rfl

theorem matchNumber_float {cs g1 rest : List Char}
    (h : matchNumber cs = some (g1, rest)) : ∃ q, floatOfChars g1 = some q := by
  simp only [matchNumber] at h
  split at h
  · exact absurd h (by simp)
  · rename_i hB
    have hne : cs.takeWhile Char.isDigit ≠ [] := by
      intro e
      exact hB (by rw [e]; rfl)
    have hall : (cs.takeWhile Char.isDigit).all Char.isDigit = true := by
      rw [List.all_eq_true]
      intro x hx
      exact List.mem_takeWhile_imp hx
    split at h
    · rename_i c0 r2 heq
      split at h
      · split at h
        · simp only [Option.some.injEq, Prod.mk.injEq] at h
          rw [← h.1]
          exact ⟨_, floatOfChars_digits _ hne hall⟩
        · rename_i hfs
          have hfne : r2.takeWhile Char.isDigit ≠ [] := by
            intro e
            exact hfs (by rw [e]; rfl)
          have hfall : (r2.takeWhile Char.isDigit).all Char.isDigit = true := by
            rw [List.all_eq_true]
            intro x hx
            exact List.mem_takeWhile_imp hx
          simp only [Option.some.injEq, Prod.mk.injEq] at h
          rw [← h.1]
          exact ⟨_, floatOfChars_dot _ _ hne hall hfne hfall⟩
      · simp only [Option.some.injEq, Prod.mk.injEq] at h
        rw [← h.1]
        exact ⟨_, floatOfChars_digits _ hne hall⟩
    · simp only [Option.some.injEq, Prod.mk.injEq] at h
      rw [← h.1]
      exact ⟨_, floatOfChars_digits _ hne hall⟩

theorem reMatch_g2_some {cs g1 : List Char} {u : String} {r : List Char}
    (h : reMatch cs = some (g1, some u, r)) : u = "g" ∨ u = "kg" ∨ u = "lb" := by
  simp only [reMatch] at h
  rcases hmn : matchNumber cs with _ | ⟨g1x, rest⟩
  · simp [hmn] at h
  · simp only [hmn, Option.some.injEq, Prod.mk.injEq] at h
    exact matchUnit_some _ u h.2.1

/-! ## Parser claims -/

/-- Claim C4: for every raw line consisting of digits (optionally with a
decimal point), an ignorable separator, and a trailing `g`, the parser
returns the decimal value with unit `g`; and a prefix of non-digit garbage
never changes the result of parsing. -/
theorem c4_digits_then_g :
    ∀ (intDs fracDs sep : List Char),
      intDs ≠ [] → intDs.all Char.isDigit = true →
      fracDs.all Char.isDigit = true →
      (∀ c ∈ sep, keepChar c = false) →
      (parse_scale_data (String.mk (intDs ++ sep ++ ['g']))
          = (some ((digitsToNat intDs : ℚ)), some "g"))
      ∧ (fracDs ≠ [] →
          parse_scale_data (String.mk (intDs ++ '.' :: fracDs ++ sep ++ ['g']))
            = (some ((digitsToNat intDs : ℚ)
                + (digitsToNat fracDs : ℚ) / (10 : ℚ) ^ fracDs.length), some "g"))
      ∧ ∀ (junk : List Char) (s : String), (∀ c ∈ junk, c.isDigit = false) →
          parse_scale_data (String.mk (junk ++ s.toList)) = parse_scale_data s := by
  intro intDs fracDs sep hne hall hfall hsep
  have halld : ∀ c ∈ intDs, c.isDigit = true := fun c hc => List.all_eq_true.mp hall c hc
  refine ⟨?_, ?_, ?_⟩
  · have hcl := cleanedOf_digits_mid_sep_g intDs [] sep hne halld (by simp) hsep
    simp only [List.append_nil] at hcl
    have hm := reMatch_digits_g intDs hne hall
    have hf := floatOfChars_digits intDs hne hall
    have hp := parse_eval (String.mk (intDs ++ sep ++ ['g'])) intDs (some "g") [] _
      (by rw [hcl]; exact hm) hf
    simpa using hp
  · intro hfne
    have hfalld : ∀ c ∈ fracDs, c.isDigit = true := fun c hc =>
      List.all_eq_true.mp hfall c hc
    have hmid : ∀ c ∈ '.' :: fracDs, keepChar c = true := by
      intro c hc
      rcases List.mem_cons.mp hc with h | h
      · subst h; decide
      · exact keepChar_of_isDigit (hfalld c h)
    have hcl := cleanedOf_digits_mid_sep_g intDs ('.' :: fracDs) sep hne halld hmid hsep
    have hm := reMatch_digits_dot_g intDs fracDs hne hall hfne hfall
    have hf := floatOfChars_dot intDs fracDs hne hall hfne hfall
    have hlist : intDs ++ '.' :: fracDs ++ ['g'] = intDs ++ '.' :: (fracDs ++ ['g']) := by
      simp
    have hp := parse_eval (String.mk (intDs ++ '.' :: fracDs ++ sep ++ ['g']))
      (intDs ++ '.' :: fracDs) (some "g") [] _
      (by rw [hcl, hlist]; exact hm) hf
    simpa using hp
  · intro junk s hjunk
    unfold parse_scale_data cleanedOf
    have h1 : step1 (String.mk (junk ++ s.toList)).toList = step1 s.toList := by
      show step1 (junk ++ s.toList) = step1 s.toList
      unfold step1
      exact dropWhile_append_all _ _ _ (fun c hc => by simp [hjunk c hc])
    rw [h1]

/-- Witness for C4 at the spec's own examples `"12.5g"` and
`"\x02\x03 45.0 g"`. -/
theorem c4_witness :
    parse_scale_data "12.5g" = (some ((25 : ℚ)/2), some "g")
    ∧ parse_scale_data "\x02\x03 45.0 g" = (some ((45 : ℚ)), some "g") := by
  constructor
  · have h := (c4_digits_then_g ['1','2'] ['5'] []
      (by decide) (by decide) (by decide) (by decide)).2.1 (by decide)
    rw [show String.mk (['1','2'] ++ '.' :: ['5'] ++ [] ++ ['g']) = "12.5g" from rfl] at h
    rw [show digitsToNat ['1','2'] = 12 from by decide,
      show digitsToNat ['5'] = 5 from by decide] at h
    rw [h]
    norm_num
  · have hjunk := (c4_digits_then_g ['1'] [] [] (by decide) (by decide) (by decide)
      (by decide)).2.2 ['\x02','\x03',' '] "45.0 g" (by decide)
    rw [show String.mk (['\x02','\x03',' '] ++ "45.0 g".toList)
      = "\x02\x03 45.0 g" from rfl] at hjunk
    rw [hjunk]
    have h := (c4_digits_then_g ['4','5'] ['0'] [' ']
      (by decide) (by decide) (by decide) (by decide)).2.1 (by decide)
    rw [show String.mk (['4','5'] ++ '.' :: ['0'] ++ [' '] ++ ['g']) = "45.0 g" from rfl] at h
    rw [show digitsToNat ['4','5'] = 45 from by decide,
      show digitsToNat ['0'] = 0 from by decide] at h
    rw [h]
    norm_num

/-- Claim C5: whenever the parser returns a successful reading, its unit is
`g` — the step-2 filter removes `k`, `l` and `b`, so the unit group can only
match `g`, and an absent unit defaults to `g`. -/
theorem c5_unit_only_g :
    ∀ (raw : String) (v : ℚ) (u : Option String),
      parse_scale_data raw = (some v, u) → u = some "g" := by
  intro raw v u h
  rcases hm : reMatch (cleanedOf raw) with _ | ⟨g1, g2, r⟩
  · unfold parse_scale_data at h
    simp only [hm] at h
    simp at h
  · have hg2 : g2 = none ∨ g2 = some "g" := by
      have hmm := hm
      simp only [reMatch] at hmm
      rcases hmn : matchNumber (cleanedOf raw) with _ | ⟨g1x, rest⟩
      · simp [hmn] at hmm
      · simp only [hmn, Option.some.injEq, Prod.mk.injEq] at hmm
        have hkeep : ∀ c ∈ skipWs rest, keepChar c = true := fun c hc =>
          keep_of_mem_cleanedOf
            (matchNumber_rest_mem hmn c ((List.dropWhile_sublist _).subset hc))
        rcases matchUnit_keep _ hkeep with hk | hk
        · exact Or.inl (hmm.2.1.symm.trans hk)
        · exact Or.inr (hmm.2.1.symm.trans hk)
    rcases hg2 with hg | hg <;> subst hg <;>
    · unfold parse_scale_data at h
      simp only [hm] at h
      rcases hf : floatOfChars g1 with _ | w
      · simp only [hf] at h
        simp at h
      · simp only [hf] at h
        exact (congrArg Prod.snd h).symm

/-- Witness for C5 at `"7kg"`: the `k` is filtered away, so the reading
comes back with unit `g`. -/
theorem c5_witness :
    parse_scale_data "7kg" = (some (7 : ℚ), some "g")
    ∧ (some "g" : Option String) = some "g" :=
  ⟨by decide, c5_unit_only_g "7kg" 7 (some "g") (by decide)⟩

/-- Claim C6: a successful reading exists only when the cleaned text
matches the numeric pattern, and an input without any digit always yields
the failure pair. -/
theorem c6_reading_needs_match :
    (∀ (raw : String) (v : ℚ) (u : Option String),
        parse_scale_data raw = (some v, u) → (reMatch (cleanedOf raw)).isSome = true)
    ∧ ∀ raw : String, (∀ c ∈ raw.toList, c.isDigit = false) →
        parse_scale_data raw = (none, none) := by
  constructor
  · intro raw v u h
    rcases hm : reMatch (cleanedOf raw) with _ | t
    · unfold parse_scale_data at h
      simp only [hm] at h
      simp at h
    · rfl
  · intro raw hraw
    have h1 : step1 raw.toList = [] := by
      unfold step1
      exact dropWhile_all_eq_nil _ _ (fun c hc => by simp [hraw c hc])
    unfold parse_scale_data cleanedOf
    rw [h1]
    rfl

/-- Witness for C6 at the spec's example `"ERROR"`. -/
theorem c6_witness :
    (∀ c ∈ "ERROR".toList, c.isDigit = false)
    ∧ parse_scale_data "ERROR" = (none, none) :=
  ⟨by decide, c6_reading_needs_match.2 "ERROR" (by decide)⟩

/-- Claim C9: the parser is all-or-nothing — either both components are
absent, or the value is present together with a non-empty unit string. -/
theorem c9_all_or_nothing :
    ∀ raw : String,
      parse_scale_data raw = (none, none)
      ∨ ∃ v u, parse_scale_data raw = (some v, some u) ∧ u ≠ "" := by
  intro raw
  rcases hm : reMatch (cleanedOf raw) with _ | ⟨g1, g2, r⟩
  · left
    unfold parse_scale_data
    simp only [hm]
  · rcases hf : floatOfChars g1 with _ | w
    · left
      unfold parse_scale_data
      simp only [hm, hf]
    · right
      rcases g2 with _ | u
      · exact ⟨w, "g", by unfold parse_scale_data; simp only [hm, hf], by decide⟩
      · have hu : u = "g" ∨ u = "kg" ∨ u = "lb" := reMatch_g2_some hm
        refine ⟨w, u, by unfold parse_scale_data; simp only [hm, hf], ?_⟩
        rcases hu with h | h | h <;> subst h <;> decide

/-- Claim C10: the final pattern is matched as a prefix, not against the
whole cleaned text: any cleaned text starting with a digit yields a
successful reading, and `"12.3.4g"` parses to `12.3` with unit `g` while
`".4g"` is left unmatched. -/
theorem c10_front_portion_match :
    (∀ (raw : String) (d : Char) (cs : List Char),
        cleanedOf raw = d :: cs → d.isDigit = true →
        ∃ v u, parse_scale_data raw = (some v, some u))
    ∧ parse_scale_data "12.3.4g" = (some ((123 : ℚ)/10), some "g")
    ∧ ∃ g1 g2, reMatch (cleanedOf "12.3.4g") = some (g1, g2, ['.', '4', 'g']) := by
  refine ⟨?_, ?_, ?_⟩
  · intro raw d cs hcl hd
    have hs := matchNumber_cons_isSome d cs hd
    rcases hsome : matchNumber (d :: cs) with _ | ⟨g1, rest⟩
    · rw [hsome] at hs
      cases hs
    · obtain ⟨q, hf⟩ := matchNumber_float hsome
      rcases hmu : (matchUnit (skipWs rest)).1 with _ | u
      · refine ⟨q, "g", ?_⟩
        unfold parse_scale_data reMatch
        rw [hcl]
        simp only [hsome, hf, hmu]
      · refine ⟨q, u, ?_⟩
        unfold parse_scale_data reMatch
        rw [hcl]
        simp only [hsome, hf, hmu]
  · have hm : reMatch (cleanedOf "12.3.4g")
        = some (['1','2','.','3'], none, ['.','4','g']) := by decide
    have hf : floatOfChars ['1','2','.','3']
        = some ((digitsToNat ['1','2'] : ℚ)
          + (digitsToNat ['3'] : ℚ) / (10 : ℚ) ^ (['3'] : List Char).length) :=
      floatOfChars_dot ['1','2'] ['3'] (by decide) (by decide) (by decide) (by decide)
    unfold parse_scale_data
    simp only [hm, hf, show digitsToNat ['1','2'] = 12 from by decide,
      show digitsToNat ['3'] = 3 from by decide, List.length_cons, List.length_nil]
    norm_num
  · exact ⟨['1','2','.','3'], none, by decide⟩

/-- Witness for C10 at `"7x"`, whose cleaned text `['7']` starts with a
digit. -/
theorem c10_witness :
    cleanedOf "7x" = ['7']
    ∧ ∃ v u, parse_scale_data "7x" = (some v, some u) :=
  ⟨by decide, c10_front_portion_match.1 "7x" '7' [] (by decide) (by decide)⟩

/-! ## Device model: `find_usb_scale` and `read_usb_scale_data`
(src/scale_api.py lines 25-100) -/

/-- Outcome of the probe read-and-decode
`ser.readline().decode('utf-8')` on a freshly opened candidate. -/
inductive ProbeResult
  | ok (data : String)
  | serialErr
  | decodeErr
deriving DecidableEq

/-- Behaviour of the single data read
`scale.readline().decode('utf-8')` performed by `read_usb_scale_data`;
`raises` is any exception there, with its message. -/
inductive ReadBehavior
  | ok (line : String)
  | raises (msg : String)
deriving DecidableEq

/-- Behaviour of `serial.Serial(name, baudrate=9600, timeout=1)` on one
candidate endpoint. -/
inductive OpenBehavior
  | raiseSerial
  | opens (isOpen : Bool) (probe : ProbeResult) (mainRead : ReadBehavior)
deriving DecidableEq

/-- One candidate serial endpoint (a `COM<n>` port on Windows, a matching
`/dev` entry elsewhere) with its modelled behaviour; the environment of a
call is the ordered candidate list the platform enumeration yields. -/
structure Candidate where
  name : String
  openB : OpenBehavior
deriving DecidableEq

/-- An open serial handle as returned by `find_usb_scale`: the port it is
bound to and how its next `readline` behaves. -/
structure Handle where
  port : String
  mainRead : ReadBehavior
deriving DecidableEq

/-- The exception kinds of the fault model: `serial.SerialException` from
serial operations, `UnicodeDecodeError` from decoding the probe bytes. -/
inductive PyExc
  | serialException
  | unicodeDecodeError
deriving DecidableEq

/-- The body of the per-candidate `try` block in `find_usb_scale`
(src/scale_api.py lines 33-39 and 45-52): open the port; if `is_open`,
send the probe, read and decode one line, and return the handle regardless
of the decoded content; with `is_open` false fall through to the next
candidate.  A `.error` value is an exception raised inside the block. -/
def tryCandidate (c : Candidate) : Except PyExc (Option Handle) :=
  match c.openB with
  | .raiseSerial => .error .serialException
  | .opens isOpen probe mainRead =>
    if isOpen then
      match probe with
      | .ok _ => .ok (some ⟨c.name, mainRead⟩)
      | .serialErr => .error .serialException
      | .decodeErr => .error .unicodeDecodeError
    else .ok none

/-- `find_usb_scale()` (src/scale_api.py lines 25-55): walk the candidates
in order; `except serial.SerialException: continue` swallows exactly that
exception kind and moves on; any other exception propagates out of the
loop; after the loop return `None`.  The second component records the
ports on which an open was attempted, for stating discovery-invocation
properties. -/
def find_usb_scale : List Candidate → Except PyExc (Option Handle) × List String
  | [] => (.ok none, [])
  | c :: rest =>
    match tryCandidate c with
    | .ok (some h) => (.ok (some h), [c.name])
    | .ok none =>
      let r := find_usb_scale rest
      (r.1, c.name :: r.2)
    | .error .serialException =>
      let r := find_usb_scale rest
      (r.1, c.name :: r.2)
    | .error e => (.error e, [c.name])

/-- A JSON response body of the endpoint: the success object
`{"weight": ..., "unit": ...}` (the unit exactly as the parser produced
it) or an error object `{"error": ...}`. -/
inductive Body
  | weight (value : ℚ) (unit : Option String)
  | error (msg : String)
deriving DecidableEq

/-- `read_usb_scale_data()` (src/scale_api.py lines 77-92).  The call to
`find_usb_scale` sits before the `try` block, so an exception propagating
out of discovery escapes this function too; exceptions of the main read
are caught by `except Exception` and mapped to the 500 body.  Returns the
`(body, status)` pair, with this call's discovery attempts alongside. -/
def read_usb_scale_data (env : List Candidate) :
    Except PyExc (Body × Nat) × List String :=
  match find_usb_scale env with
  | (.error e, tr) => (.error e, tr)
  | (.ok none, tr) => (.ok (.error "USB scale not found", 404), tr)
  | (.ok (some h), tr) =>
    match h.mainRead with
    | .raises msg => (.ok (.error ("Error reading scale: " ++ msg), 500), tr)
    | .ok line =>
      match parse_scale_data (String.mk (pyStrip line.toList)) with
      | (some w, u) => (.ok (.weight w u, 200), tr)
      | (none, _) => (.ok (.error "Failed to parse weight from scale data", 500), tr)

/-- The Flask route handler `read_scale` (src/scale_api.py lines 94-100):
it calls `read_usb_scale_data` and serialises the resulting pair as the
HTTP response; on the modelled bodies `jsonify` is the identity. -/
def read_scale (env : List Candidate) :
    Except PyExc (Body × Nat) × List String :=
  read_usb_scale_data env

/-- Reading Outcome of the spec's data model (§3). -/
inductive ReadingOutcome
  | success (value : ℚ) (unit : Option String)
  | deviceNotFound
  | parseFailure
  | ioError (detail : String)
deriving DecidableEq

/-- Modelled from the spec: the Reading Service's `get_weight()` (§4.4) as
realised inline by `read_usb_scale_data` — the classification of one
reading attempt into the Reading Outcome taxonomy. -/
def get_weight (env : List Candidate) : Except PyExc ReadingOutcome :=
  match find_usb_scale env with
  | (.error e, _) => .error e
  | (.ok none, _) => .ok .deviceNotFound
  | (.ok (some h), _) =>
    match h.mainRead with
    | .raises msg => .ok (.ioError msg)
    | .ok line =>
      match parse_scale_data (String.mk (pyStrip line.toList)) with
      | (some w, u) => .ok (.success w u)
      | (none, _) => .ok .parseFailure

/-- Modelled from the spec: the response table of §4.5 mapping each
Reading Outcome to its HTTP status and body. -/
def outcomeToResponse : ReadingOutcome → Body × Nat
  | .success v u => (.weight v u, 200)
  | .deviceNotFound => (.error "USB scale not found", 404)
  | .parseFailure => (.error "Failed to parse weight from scale data", 500)
  | .ioError d => (.error ("Error reading scale: " ++ d), 500)

/-- Two successive requests to the endpoint: the script keeps no
module-level handle or reading state, so each request evaluates
`read_usb_scale_data` afresh on the same environment. -/
def twoCalls (env : List Candidate) :
    (Except PyExc (Body × Nat) × List String)
    × (Except PyExc (Body × Nat) × List String) :=
  (read_usb_scale_data env, read_usb_scale_data env)

/-! ## HTTP-mapping and discovery claims -/

/-- Claim C1: for every environment, the response of `GET /read-scale` is
exactly the spec's table applied to the Reading Outcome of the call
(success body with 200, the three documented error bodies with 404/500);
an exception escaping the reading service corresponds to the same
exception escaping the route. -/
theorem c1_response_is_outcome_mapping :
    ∀ env : List Candidate,
      (read_scale env).1 = (get_weight env).map outcomeToResponse := by
  intro env
  unfold read_scale read_usb_scale_data get_weight
  rcases hf : find_usb_scale env with ⟨r, tr⟩
  rcases r with e | o
  · rfl
  · rcases o with _ | h
    · rfl
    · rcases hm : h.mainRead with line | msg
      · rcases hp : parse_scale_data (String.mk (pyStrip line.toList)) with ⟨w, u⟩
        rcases w with _ | w <;> simp only [hm, hp, Except.map, outcomeToResponse]
      · simp only [hm, Except.map, outcomeToResponse]

/-- Environment for the C2 counterexample: one candidate that opens and
probes fine but whose line has no digits, so parsing fails. -/
def envParseFailure : List Candidate :=
  [⟨"COM3", .opens true (.ok "OK") (.ok "NODATA")⟩]

/-- Counterexample to claim C2: the first call ends in the ParseFailure
response, after which the claim says the handle is retained and the next
call reads from it without re-probing; but the second call performs the
discovery open attempt on `COM3` again. -/
theorem c2_counterexample :
    (twoCalls envParseFailure).1.1
        = .ok (.error "Failed to parse weight from scale data", 500)
    ∧ (twoCalls envParseFailure).2.2 = ["COM3"] := by
  exact ⟨rfl, rfl⟩

/-- Amended claim C2: no device handle is retained between calls — the
script keeps no handle state and `read_usb_scale_data` calls
`find_usb_scale` unconditionally, so every call repeats the discovery
attempts of the first one, after Success and ParseFailure outcomes
included. -/
theorem c2_amended :
    ∀ env : List Candidate,
      (read_usb_scale_data env).2 = (find_usb_scale env).2
      ∧ (twoCalls env).2 = (twoCalls env).1
      ∧ (env ≠ [] → (read_usb_scale_data env).2 ≠ []) := by
  intro env
  have h1 : (read_usb_scale_data env).2 = (find_usb_scale env).2 := by
    unfold read_usb_scale_data
    rcases hf : find_usb_scale env with ⟨r, tr⟩
    rcases r with e | o
    · rfl
    · rcases o with _ | h
      · rfl
      · rcases hm : h.mainRead with line | msg
        · rcases hp : parse_scale_data (String.mk (pyStrip line.toList)) with ⟨w, u⟩
          rcases w with _ | w <;> simp only [hm, hp]
        · simp only [hm]
  refine ⟨h1, rfl, ?_⟩
  intro hne
  rw [h1]
  rcases env with _ | ⟨c, rest⟩
  · exact absurd rfl hne
  · rcases ht : tryCandidate c with e | o
    · rcases e with _ | _ <;> simp [find_usb_scale, ht]
    · rcases o with _ | h <;> simp [find_usb_scale, ht]

/-- Witness for the amended C2 on a non-empty environment. -/
theorem c2_amended_witness :
    envParseFailure ≠ [] ∧ (read_usb_scale_data envParseFailure).2 ≠ [] :=
  ⟨by simp [envParseFailure], (c2_amended envParseFailure).2.2 (by simp [envParseFailure])⟩

/-- Environment for the C3 counterexample: the probe response on `COM3`
fails to decode; `COM4` would open and read fine. -/
def envDecodeErr : List Candidate :=
  [⟨"COM3", .opens true .decodeErr (.ok "12.5g")⟩,
   ⟨"COM4", .opens true (.ok "OK") (.ok "12.5g")⟩]

/-- Counterexample to claim C3: the undecodable probe response on `COM3`
is not swallowed — the search aborts without trying `COM4`, and the decode
error escapes `read_usb_scale_data` to the HTTP layer instead of being
mapped to a 500 body. -/
theorem c3_counterexample :
    (find_usb_scale envDecodeErr).1 = .error .unicodeDecodeError
    ∧ (find_usb_scale envDecodeErr).2 = ["COM3"]
    ∧ (read_usb_scale_data envDecodeErr).1 = .error .unicodeDecodeError := by
  exact ⟨rfl, rfl, rfl⟩

theorem find_error_only_decode :
    ∀ (env : List Candidate) (e : PyExc),
      (find_usb_scale env).1 = .error e → e = .unicodeDecodeError := by
  intro env
  induction env with
  | nil => intro e h; simp [find_usb_scale] at h
  | cons c rest ih =>
    intro e h
    unfold find_usb_scale at h
    rcases ht : tryCandidate c with e2 | o
    · rcases e2 with _ | _
      · simp only [ht] at h
        exact ih e h
      · simp only [ht] at h
        simp only [Except.error.injEq] at h
        exact h.symm
    · rcases o with _ | hh
      · simp only [ht] at h
        exact ih e h
      · simp only [ht] at h
        exact absurd h (by simp)

/-- Amended claim C3: only `serial.SerialException` raised while opening
or probing a candidate is swallowed and skips to the next candidate; a
decode error on the probe response propagates out of `find_usb_scale` and
escapes `read_usb_scale_data` uncaught (discovery runs before the `try`
block), and that decode error is the only exception kind that can escape
to the HTTP layer — main-read exceptions are mapped to the 500 body. -/
theorem c3_amended :
    (∀ (name : String) (rest : List Candidate),
        (find_usb_scale (⟨name, .raiseSerial⟩ :: rest)).1 = (find_usb_scale rest).1)
    ∧ (∀ (name : String) (mr : ReadBehavior) (rest : List Candidate),
        (find_usb_scale (⟨name, .opens true .serialErr mr⟩ :: rest)).1
          = (find_usb_scale rest).1)
    ∧ (∀ (name : String) (mr : ReadBehavior) (rest : List Candidate),
        (find_usb_scale (⟨name, .opens true .decodeErr mr⟩ :: rest)).1
          = .error .unicodeDecodeError)
    ∧ ∀ (env : List Candidate) (e : PyExc),
        (read_usb_scale_data env).1 = .error e → e = .unicodeDecodeError := by
  refine ⟨fun name rest => rfl, fun name mr rest => rfl, fun name mr rest => rfl, ?_⟩
  intro env e h
  unfold read_usb_scale_data at h
  split at h
  · rename_i e2 tr heq
    have h2 : e2 = .unicodeDecodeError := find_error_only_decode env e2 (by rw [heq])
    simp at h
    rw [← h]
    exact h2
  · simp at h
  · split at h
    · simp at h
    · split at h <;> simp at h

/-- Witness for the amended C3: a concrete escape carrying the decode
error. -/
theorem c3_amended_witness :
    (read_usb_scale_data envDecodeErr).1 = .error .unicodeDecodeError
    ∧ PyExc.unicodeDecodeError = .unicodeDecodeError :=
  ⟨rfl, c3_amended.2.2.2 envDecodeErr .unicodeDecodeError rfl⟩

/-- Environment for the C7 counterexample: the sole candidate opens, but
the probe response does not decode. -/
def envOpenUndecodable : List Candidate :=
  [⟨"COM7", .opens true .decodeErr (.ok "1g")⟩]

/-- Counterexample to claim C7: the only candidate's open succeeds, so the
claim requires its handle to be returned regardless of the probe response;
instead `find_usb_scale` raises on the undecodable probe response. -/
theorem c7_counterexample :
    (find_usb_scale envOpenUndecodable).1 = .error .unicodeDecodeError
    ∧ (find_usb_scale envOpenUndecodable).1
        ≠ .ok (some ⟨"COM7", .ok "1g"⟩) := by
  refine ⟨rfl, ?_⟩
  intro h
  rw [show (find_usb_scale envOpenUndecodable).1
      = Except.error PyExc.unicodeDecodeError from rfl] at h
  exact Except.noConfusion h

/-- A candidate the search passes over: its open raises a serial
exception, or the port reports not open, or the probe read raises a
serial exception. -/
def skipsCand (c : Candidate) : Bool :=
  match c.openB with
  | .raiseSerial => true
  | .opens false _ _ => true
  | .opens true .serialErr _ => true
  | _ => false

theorem find_none_of_all_skip :
    ∀ env : List Candidate, (∀ c ∈ env, skipsCand c = true) →
      (find_usb_scale env).1 = .ok none := by
  intro env
  induction env with
  | nil => intro h; rfl
  | cons c rest ih =>
    intro h
    have hh : skipsCand c = true := h c (by simp)
    have ht : ∀ x ∈ rest, skipsCand x = true := fun x hx => h x (by simp [hx])
    rcases c with ⟨name, ob⟩
    rcases ob with _ | ⟨io, p, mr⟩
    · exact ih ht
    · rcases io with _ | _
      · exact ih ht
      · rcases p with data | _ | _
        · simp [skipsCand] at hh
        · exact ih ht
        · simp [skipsCand] at hh

/-- Port Enumerator, numbered-port platform (src/scale_api.py line 32):
`for port in range(1, 256)` probes `COM1` through `COM255` in order. -/
def windowsPortNames : List String :=
  (List.range' 1 255).map (fun n => "COM" ++ toString n)

/-- Port Enumerator, device-file platform (src/scale_api.py lines 43-44):
the entries of the `/dev` listing whose name starts with `ttyUSB` or
`ttyACM`, in listing order, each probed as `/dev/<entry>`. -/
def devPortNames (listing : List String) : List String :=
  (listing.filter (fun d =>
    "ttyUSB".toList.isPrefixOf d.toList || "ttyACM".toList.isPrefixOf d.toList)).map
    (fun d => "/dev/" ++ d)

/-- The platform split `os.name == 'nt'` (src/scale_api.py lines 31, 42);
on the device-file side the environment carries the `/dev` listing. -/
inductive Platform
  | nt
  | posix (devListing : List String)

/-- The candidate sequence `find_usb_scale` walks on each platform. -/
def enumeratedNames : Platform → List String
  | .nt => windowsPortNames
  | .posix listing => devPortNames listing

/-- Attach to each enumerated port name its open behaviour. -/
def candidatesOf (names : List String) (beh : String → OpenBehavior) : List Candidate :=
  names.map (fun n => ⟨n, beh n⟩)

/-- `find_usb_scale` together with its Port Enumerator: the loop of
src/scale_api.py lines 31-55 over the platform's enumerated candidates,
`beh` giving each port's behaviour when opened. -/
def find_usb_scale_os (p : Platform) (beh : String → OpenBehavior) :
    Except PyExc (Option Handle) × List String :=
  find_usb_scale (candidatesOf (enumeratedNames p) beh)

theorem find_all_skip_trace :
    ∀ (names : List String) (beh : String → OpenBehavior),
      (∀ n ∈ names, skipsCand ⟨n, beh n⟩ = true) →
      find_usb_scale (candidatesOf names beh) = (.ok none, names) := by
  intro names beh
  induction names with
  | nil => intro h; rfl
  | cons n rest ih =>
    intro h
    have hh : skipsCand ⟨n, beh n⟩ = true := h n (by simp)
    have ht : ∀ x ∈ rest, skipsCand ⟨x, beh x⟩ = true := fun x hx => h x (by simp [hx])
    show find_usb_scale (⟨n, beh n⟩ :: candidatesOf rest beh) = (.ok none, n :: rest)
    rcases hb : beh n with _ | ⟨io, p, mr⟩
    · simp [find_usb_scale, tryCandidate, hb, ih ht]
    · rcases io with _ | _
      · simp [find_usb_scale, tryCandidate, hb, ih ht]
      · rcases p with data | _ | _
        · simp [skipsCand, hb] at hh
        · simp [find_usb_scale, tryCandidate, hb, ih ht]
        · simp [skipsCand, hb] at hh

/-- Amended claim C7: on the numbered-port platform the enumeration is
`COM1..COM255` in order, and on the device-file platform it is exactly
the `/dev` entries whose name starts with `ttyUSB` or `ttyACM`, in listing
order, as `/dev/<entry>`; `find_usb_scale` iterates these candidates in
order and returns a handle bound to the first one that opens with an open
port and whose probe response decodes — regardless of the decoded content;
a candidate raising a serial exception on open or probe read, or opening
with a closed port, is skipped; an undecodable probe response raises
instead of yielding that handle; and when every candidate is skipped the
search attempts exactly the enumerated candidates in order and returns
`None` (NotFound) — the empty enumeration included — a normal outcome. -/
theorem c7_amended :
    (find_usb_scale [] = (.ok none, []))
    ∧ (∀ (name line : String) (mr : ReadBehavior) (rest : List Candidate),
        find_usb_scale (⟨name, .opens true (.ok line) mr⟩ :: rest)
          = (.ok (some ⟨name, mr⟩), [name]))
    ∧ (∀ (c : Candidate) (rest : List Candidate), skipsCand c = true →
        (find_usb_scale (c :: rest)).1 = (find_usb_scale rest).1
        ∧ (find_usb_scale (c :: rest)).2 = c.name :: (find_usb_scale rest).2)
    ∧ (∀ (name : String) (mr : ReadBehavior) (rest : List Candidate),
        (find_usb_scale (⟨name, .opens true .decodeErr mr⟩ :: rest)).1
          = .error .unicodeDecodeError)
    ∧ (∀ env : List Candidate, (∀ c ∈ env, skipsCand c = true) →
        (find_usb_scale env).1 = .ok none)
    ∧ (windowsPortNames.length = 255)
    ∧ (∀ i : ℕ, i < 255 →
        windowsPortNames[i]? = some ("COM" ++ toString (i + 1)))
    ∧ (∀ (listing : List String) (p : String),
        p ∈ devPortNames listing ↔ ∃ d ∈ listing,
          ("ttyUSB".toList.isPrefixOf d.toList
            || "ttyACM".toList.isPrefixOf d.toList) = true
          ∧ p = "/dev/" ++ d)
    ∧ (∀ (pf : Platform) (beh : String → OpenBehavior),
        (∀ n ∈ enumeratedNames pf, skipsCand ⟨n, beh n⟩ = true) →
        find_usb_scale_os pf beh = (.ok none, enumeratedNames pf))
    ∧ ∀ beh : String → OpenBehavior,
        find_usb_scale_os (.posix []) beh = (.ok none, []) := by
  refine ⟨rfl, fun name line mr rest => rfl, ?_, fun name mr rest => rfl,
    find_none_of_all_skip, ?_, ?_, ?_, fun pf beh h => find_all_skip_trace _ beh h,
    fun beh => rfl⟩
  · intro c rest hs
    rcases c with ⟨name, ob⟩
    rcases ob with _ | ⟨io, p, mr⟩
    · exact ⟨rfl, rfl⟩
    · rcases io with _ | _
      · exact ⟨rfl, rfl⟩
      · rcases p with data | _ | _
        · simp [skipsCand] at hs
        · exact ⟨rfl, rfl⟩
        · simp [skipsCand] at hs
  · simp [windowsPortNames]
  · intro i hi
    have hl : i < windowsPortNames.length := by
      simpa [windowsPortNames] using hi
    rw [List.getElem?_eq_getElem hl]
    simp [windowsPortNames, List.getElem_map, List.getElem_range', Nat.add_comm]
  · intro listing p
    constructor
    · intro hp
      rcases List.mem_map.mp hp with ⟨d, hd, he⟩
      rcases List.mem_filter.mp hd with ⟨hdl, hq⟩
      exact ⟨d, hdl, hq, he.symm⟩
    · rintro ⟨d, hdl, hq, rfl⟩
      exact List.mem_map.mpr ⟨d, List.mem_filter.mpr ⟨hdl, hq⟩, rfl⟩

/-- Witness for the amended C7 on the device-file platform: a listing
with one matching and one non-matching entry, whose only candidate fails
to open, yields NotFound after attempting exactly `/dev/ttyUSB0`. -/
theorem c7_amended_witness :
    (∀ n ∈ enumeratedNames (.posix ["ttyUSB0", "console"]),
        skipsCand ⟨n, (fun _ => OpenBehavior.raiseSerial) n⟩ = true)
    ∧ find_usb_scale_os (.posix ["ttyUSB0", "console"]) (fun _ => .raiseSerial)
        = (.ok none, ["/dev/ttyUSB0"]) :=
  ⟨by decide,
    c7_amended.2.2.2.2.2.2.2.2.1 (.posix ["ttyUSB0", "console"])
      (fun _ => .raiseSerial) (by decide)⟩

/-! ## Tunnel info provider: `get_ngrok_url` (src/api_script.py lines 37-49) -/

/-- Environment of one tunnel-status query: the manager endpoint is
unreachable (the request raises a `RequestException`, which in this
`requests` version also covers a malformed JSON body), or it answers with
a status code and the list of `public_url` fields of the listed tunnels. -/
inductive NgrokEnv
  | unreachable
  | reachable (status : Nat) (tunnels : List String)
deriving DecidableEq

/-- The result dictionary of `get_ngrok_url`. -/
structure NgrokResult where
  url : String
  status : String
deriving DecidableEq

/-- Substring containment — the Python membership test `"https" in url`. -/
def containsSub (needle : List Char) : List Char → Bool
  | [] => needle.isEmpty
  | c :: t => needle.isPrefixOf (c :: t) || containsSub needle t

/-- The label extraction `full_url.split("//")[-1].split(".")[0]`: the part
of the last `//`-separated piece before its first dot.  Both splits always
return a non-empty list, so the defaults are never used. -/
def subdomainOf (u : String) : String :=
  (((u.splitOn "//").getLastD "").splitOn ".").headD ""

/-- `get_ngrok_url()` (src/api_script.py lines 37-49): on a 200 answer,
return `connected` with the extracted label of the first tunnel whose
public URL contains the substring `https`; in every other reachable case
fall through to `not_found`; a raised request exception yields `offline`.
The function is total on the fault model: it never propagates an
exception. -/
def get_ngrok_url : NgrokEnv → NgrokResult
  | .unreachable => ⟨"Not available", "offline"⟩
  | .reachable status tunnels =>
    match (if status = 200
        then tunnels.find? (fun u => containsSub "https".toList u.toList)
        else none) with
    | some u => ⟨subdomainOf u, "connected"⟩
    | none => ⟨"Not found", "not_found"⟩

/-- Modelled from the spec: a "secure" public URL (§4.6 and §6, "the
secure scheme") is one whose scheme is `https`. -/
def isSecureUrl (u : String) : Bool := "https://".toList.isPrefixOf u.toList

/-- Counterexample to claim C8: the manager answers 200 with a single
tunnel whose public URL uses the insecure `http` scheme and merely
contains `https` inside its host; no listed public URL is secure, yet the
provider reports `connected` rather than `not_found`. -/
theorem c8_counterexample :
    isSecureUrl "http://https.fake.io" = false
    ∧ (get_ngrok_url (.reachable 200 ["http://https.fake.io"])).status = "connected"
    ∧ (get_ngrok_url (.reachable 200 ["http://https.fake.io"])).status ≠ "not_found" := by
  refine ⟨by decide, rfl, by decide⟩

/-- Amended claim C8: the provider never raises (it is total on the fault
model); an unreachable manager yields `offline`; a reachable manager
yields `not_found` when the status is not 200 or when no listed public URL
contains the substring `https` — the code tests substring containment, not
the secure scheme — and otherwise reports `connected` with the label split
out of the first URL containing that substring. -/
theorem c8_amended :
    (get_ngrok_url .unreachable = ⟨"Not available", "offline"⟩)
    ∧ (∀ (st : Nat) (ts : List String),
        (st ≠ 200 ∨ ∀ u ∈ ts, containsSub "https".toList u.toList = false) →
        get_ngrok_url (.reachable st ts) = ⟨"Not found", "not_found"⟩)
    ∧ (∀ (ts : List String) (u : String),
        ts.find? (fun u => containsSub "https".toList u.toList) = some u →
        get_ngrok_url (.reachable 200 ts) = ⟨subdomainOf u, "connected"⟩) := by
  refine ⟨rfl, ?_, ?_⟩
  · intro st ts h
    rcases h with h | h
    · simp only [get_ngrok_url, if_neg h]
    · by_cases hs : st = 200
      · have hnone : List.find? (fun u => containsSub ['h','t','t','p','s'] u.data) ts
            = none :=
          List.find?_eq_none.mpr (fun u hu => by simpa using h u hu)
        simp [get_ngrok_url, hs, hnone]
      · simp [get_ngrok_url, hs]
  · intro ts u h
    have h2 : List.find? (fun u => containsSub ['h','t','t','p','s'] u.data) ts
        = some u := by simpa using h
    simp [get_ngrok_url, h2]

/-- Witness for the amended C8: a non-200 answer is reported as
`not_found`. -/
theorem c8_amended_witness :
    ((404 : Nat) ≠ 200 ∨ ∀ u ∈ (["http://a.b"] : List String),
        containsSub "https".toList u.toList = false)
    ∧ get_ngrok_url (.reachable 404 ["http://a.b"]) = ⟨"Not found", "not_found"⟩ :=
  ⟨Or.inl (by decide), c8_amended.2.1 404 ["http://a.b"] (Or.inl (by decide))⟩

end Scale
